import Mathlib

/-!
# Verification of the A2A mailbox/registry server (`a2a/mcp/a2a-server.py`)

Shallow embedding of the filesystem-backed agent registry and mailbox
operations.  Python strings are modelled as `List Char`; the registry
document and message files are character lists; the filesystem is an
explicit structure of files, directories and symbolic links with paths as
component lists.  Timestamps are passed in as arguments (the Python code
reads a clock).
-/

set_option autoImplicit false

namespace A2A

/-- Python strings are modelled as lists of characters. -/
abbrev Str := List Char

deriving instance DecidableEq for Except

/-- `s.startswith(pre)` for Python strings. -/
def pyStartsWith (s pre : Str) : Bool := pre.isPrefixOf s

/-- `s.endswith(suf)` for Python strings. -/
def pyEndsWith (s suf : Str) : Bool := suf.isSuffixOf s

/-- Python substring containment `pat in s` (contiguous occurrence). -/
def containsSub (pat : Str) : Str → Bool
  | [] => pat.isPrefixOf []
  | c :: rest => pat.isPrefixOf (c :: rest) || containsSub pat rest

/-- `s.split(sep)` for Python strings and a one-character separator:
split at every occurrence, keeping empty pieces; always returns at least
one piece. -/
def pySplitOn (sep : Char) : Str → List Str
  | [] => [[]]
  | c :: rest =>
    if c = sep then [] :: pySplitOn sep rest
    else
      match pySplitOn sep rest with
      | [] => [[c]]
      | h :: t => (c :: h) :: t

/-- `s.split("\n")`. -/
def pySplitNl : Str → List Str := pySplitOn '\n'

/-- `"\n".join(lines)` for Python strings. -/
def joinNl : List Str → Str
  | [] => []
  | [l] => l
  | l :: rest => l ++ '\n' :: joinNl rest

/-- The whitespace characters stripped by Python `str.rstrip()`
(ASCII subset; the documents here only ever end in spaces or newlines). -/
def pyIsSpace (c : Char) : Bool :=
  c = ' ' || c = '\t' || c = '\n' || c = '\r' || c = '\x0b' || c = '\x0c'

/-- `s.rstrip()` for Python strings. -/
def pyRstrip (s : Str) : Str := (s.reverse.dropWhile pyIsSpace).reverse

/-- Worker for `str.replace(pat, "")`, structurally recursive on a fuel
bound: each step either copies one character or skips one (nonempty)
pattern occurrence, so `s.length` fuel always suffices. -/
def pyRemoveAllGo (pat : Str) : Nat → Str → Str
  | 0, s => s
  | _ + 1, [] => []
  | fuel + 1, c :: rest =>
    if pat ≠ [] ∧ pat.isPrefixOf (c :: rest) then
      pyRemoveAllGo pat fuel ((c :: rest).drop pat.length)
    else
      c :: pyRemoveAllGo pat fuel rest

/-- `s.replace(pat, "")` for Python strings — removes every occurrence of
the pattern, scanning left to right. -/
def pyRemoveAll (pat s : Str) : Str := pyRemoveAllGo pat s.length s

/-- A character admitted by the agent-name character class `[a-zA-Z0-9_-]`. -/
def isNameChar (c : Char) : Bool :=
  ('a' ≤ c ∧ c ≤ 'z') || ('A' ≤ c ∧ c ≤ 'Z') || ('0' ≤ c ∧ c ≤ '9') || c = '_' || c = '-'

/--
`AGENT_NAME_PATTERN.match(name)` where the pattern is `^[a-zA-Z0-9_-]+$`.
Python's `$` (without `re.MULTILINE`) matches at the end of the string or
just before a single newline at the end of the string, so the regex also
accepts a name followed by one trailing `'\n'`.
-/
def reMatchName (s : Str) : Bool :=
  let core := if s.getLast? = some '\n' then s.dropLast else s
  core ≠ [] && core.all isNameChar

/-- `_validate_agent_name`: raises `ValueError` unless the regex matches. -/
def validateAgentName (s : Str) : Except Str Unit :=
  if reMatchName s then .ok () else
    .error ("Agent name \x27".data ++ s ++ "\x27 is invalid. Must contain only alphanumeric characters, underscores, or hyphens.".data)

/-! ## Registry document operations

The registry lives in `active-agents.md`.  The functions below embed the
string-level algorithms of `register_agent` and `unregister_agent`; the
document text is passed as `Option Str` (`none` = file does not exist). -/

/-- The record-start marker `"## " + agent_name`. -/
def agentHeader (name : Str) : Str := "## ".data ++ name

/-- The field-extraction loop of `register_agent` (`for i, line in
enumerate(lines)` with a 2-line lookahead for the description and a
`break` at the next `"## "` heading).  `all` is the full line list kept
for the lookahead; `i` is the index of the current line. -/
def extractGo (all : List Str) (header : Str) :
    List Str → Nat → Bool → Str → Str → Str → Str × Str × Str
  | [], _, _, d, cp, wd => (d, cp, wd)
  | line :: rest, i, inSec, d, cp, wd =>
    if line = header then
      let d' := if i + 2 < all.length ∧ ¬ pyStartsWith (all.getD (i + 2) []) "**".data
        then all.getD (i + 2) [] else d
      extractGo all header rest (i + 1) true d' cp wd
    else if inSec then
      if pyStartsWith line "## ".data then (d, cp, wd)
      else if pyStartsWith line "**Capabilities:**".data then
        extractGo all header rest (i + 1) true d (pyRemoveAll "**Capabilities:** ".data line) wd
      else if pyStartsWith line "**Working in:**".data then
        extractGo all header rest (i + 1) true d cp (pyRemoveAll "**Working in:** ".data line)
      else extractGo all header rest (i + 1) true d cp wd
    else extractGo all header rest (i + 1) false d cp wd

/-- Existing `description`/`capabilities`/`working_dir` of the record for
`header`, as parsed by `register_agent`. -/
def extractFields (lines : List Str) (header : Str) : Str × Str × Str :=
  extractGo lines header lines 0 false [] [] []

/-- The section-removal loop shared by `register_agent` and
`unregister_agent`: drop the header line and following lines until the
next `"## "` heading. -/
def removeSection (header : Str) : List Str → Bool → List Str
  | [], _ => []
  | line :: rest, skip =>
    if line = header then removeSection header rest true
    else
      let skip' := if skip ∧ pyStartsWith line "## ".data then false else skip
      if skip' then removeSection header rest skip'
      else line :: removeSection header rest skip'

/-- `while new_lines and new_lines[-1] == "": new_lines.pop()`. -/
def dropTrailingBlanks (l : List Str) : List Str :=
  (l.reverse.dropWhile (· = ([] : Str))).reverse

/-- The consecutive-blank-line collapse of `unregister_agent`. -/
def collapseBlanks : List Str → Bool → List Str
  | [], _ => []
  | line :: rest, prevBlank =>
    if line = [] ∧ prevBlank then collapseBlanks rest prevBlank
    else line :: collapseBlanks rest (line = [])

/-- A reported change `f"{field}: '{old}' -> '{new}'"`. -/
def renderChange (field old new : Str) : Str :=
  field ++ ": \x27".data ++ old ++ "\x27 -> \x27".data ++ new ++ ['\x27']

/-- The freshly appended registration block (the `entry` f-string). -/
def registrationEntry (name desc caps wdir ts : Str) : Str :=
  "\n\n## ".data ++ name ++ "\n\n".data ++ desc ++ "\n\n**Capabilities:** ".data ++ caps
    ++ "\n**Working in:** ".data ++ wdir ++ "\n**Started:** ".data ++ ts
    ++ "\n**Status:** active\n".data

/-- Result of `register_agent`: the rewritten document, the change list,
and the returned message. -/
structure RegResult where
  doc : Str
  changes : List Str
  msg : Str
  deriving Repr, DecidableEq

/-- The changed-field diffs computed by `register_agent` when a record is
already present (compare old vs new, report only when different, in the
order description / capabilities / working-dir). -/
def registerChanges (content : Str) (header : Str) (desc caps wdir : Str) : List Str :=
  let (d0, c0, w0) := extractFields (pySplitNl content) header
  (if d0 ≠ desc then [renderChange "description".data d0 desc] else [])
    ++ (if c0 ≠ caps then [renderChange "capabilities".data c0 caps] else [])
    ++ (if w0 ≠ wdir then [renderChange "working-dir".data w0 wdir] else [])

/-- `register_agent`, restricted to its effect on the registry document
(`doc = none` models a missing `active-agents.md`, which the code
initialises to `"# Active Agents\n\n"`).  Directory creation is modelled
separately at the filesystem level.  When the substring check finds the
header, the change list is computed from the parsed record and the old
section is spliced out before the fresh block is appended. -/
def registerAgentDoc (doc : Option Str) (name desc caps wdir ts : Str) :
    Except Str RegResult :=
  match validateAgentName name with
  | .error e => .error e
  | .ok () =>
    let content := doc.getD "# Active Agents\n\n".data
    let header := agentHeader name
    let isUpd := containsSub header content
    let changes := if isUpd then registerChanges content header desc caps wdir else []
    let content1 :=
      if isUpd then joinNl (dropTrailingBlanks (removeSection header (pySplitNl content) false))
      else content
    let newDoc := pyRstrip content1 ++ registrationEntry name desc caps wdir ts
    let msg :=
      if changes ≠ [] then
        "Updated registration for \x27".data ++ name ++ "\x27 at ".data ++ ts
          ++ "\nChanged fields:\n".data ++ joinNl (changes.map ("  - ".data ++ ·))
      else "Registered agent \x27".data ++ name ++ "\x27 at ".data ++ ts
    .ok ⟨newDoc, changes, msg⟩

/-- `unregister_agent`, restricted to its effect on the registry document;
returns the rewritten document and the result message (the optional inbox
deletion is a separate filesystem effect). -/
def unregisterAgentDoc (doc : Option Str) (name : Str) : Except Str (Str × Str) :=
  match validateAgentName name with
  | .error e => .error e
  | .ok () =>
    match doc with
    | none => .error "No agents file found - nothing to unregister".data
    | some content =>
      let header := agentHeader name
      if ¬ containsSub header content then
        .error ("Agent \x27".data ++ name ++ "\x27 is not registered".data)
      else
        let newLines := dropTrailingBlanks (removeSection header (pySplitNl content) false)
        let cleaned := collapseBlanks newLines false
        .ok (joinNl cleaned ++ ['\n'], "Unregistered agent \x27".data ++ name ++ ['\x27'])

/-- A record line for exactly `name`: a document line equal to `"## " + name`.
(Spec-side notion used to state the claims about "a record for exactly n".) -/
def hasRecordLine (content name : Str) : Bool :=
  (pySplitNl content).any (· = agentHeader name)

/-- Number of record lines for exactly `name`. -/
def countRecordLines (content name : Str) : Nat :=
  ((pySplitNl content).filter (· = agentHeader name)).length

/-! ## Filesystem model

Absolute paths are component lists.  The filesystem records regular files
(with their text), directories, symbolic links (for `Path.resolve`), and
the current working directory (assumed already fully resolved, as POSIX
`getcwd` returns a symlink-free path). -/

/-- `Path.home()` modelled as a fixed absolute directory. -/
def HOME_DIR : List Str := ["home".data, "user".data]

/-- `A2A_DIR = Path.home() / "a2a"`. -/
def A2A_DIR : List Str := HOME_DIR ++ ["a2a".data]

/-- Filesystem state. -/
structure FS where
  files : List (List Str × Str)
  dirs : List (List Str)
  links : List (List Str × List Str)
  cwd : List Str
  deriving Repr

/-- A regular file exists at `p`. -/
def hasFile (fs : FS) (p : List Str) : Bool := fs.files.any (fun e => e.1 = p)

/-- A directory exists at `p`. -/
def hasDir (fs : FS) (p : List Str) : Bool := fs.dirs.any (· = p)

/-- `Path.exists()`: file or directory. -/
def fsExists (fs : FS) (p : List Str) : Bool := hasFile fs p || hasDir fs p

/-- `Path.read_text()` (used only where existence was checked). -/
def fileContent (fs : FS) (p : List Str) : Str :=
  ((fs.files.find? (fun e => e.1 = p)).map Prod.snd).getD []

/-- `Path.write_text(content)`: create or overwrite. -/
def fsWrite (fs : FS) (p : List Str) (content : Str) : FS :=
  ⟨(p, content) :: fs.files.filter (fun e => e.1 ≠ p), fs.dirs, fs.links, fs.cwd⟩

/-- `Path.touch()`: create an empty file if absent, otherwise only the
modification time changes (not tracked). -/
def fsTouch (fs : FS) (p : List Str) : FS :=
  if hasFile fs p then fs else ⟨(p, []) :: fs.files, fs.dirs, fs.links, fs.cwd⟩

/-- Create one directory if absent (`mkdir(exist_ok=True)`). -/
def fsMkdir (fs : FS) (p : List Str) : FS :=
  if hasDir fs p then fs else ⟨fs.files, p :: fs.dirs, fs.links, fs.cwd⟩

/-- `mkdir(parents=True, exist_ok=True)`: create the directory and all its
ancestors. -/
def fsMkdirParents (fs : FS) (p : List Str) : FS :=
  ((List.range p.length).map (fun i => p.take (i + 1))).foldl fsMkdir fs

/-- Names of the regular files directly inside `dir` that match the glob
pattern `*.md` (pathlib's glob does not special-case dotfiles). -/
def globMd (fs : FS) (dir : List Str) : List Str :=
  (fs.files.filterMap (fun e => if e.1.dropLast = dir then e.1.getLast? else none)).filter
    (fun nm => pyEndsWith nm ".md".data)

/-- Lexicographic-by-code-point order used by `sorted` on same-directory
paths. -/
def strLe (a b : Str) : Bool := !decide (b < a)

/-- Insert into a sorted list. -/
def insertSorted (x : Str) : List Str → List Str
  | [] => [x]
  | y :: rest => if strLe x y then x :: y :: rest else y :: insertSorted x rest

/-- `sorted(...)` over filenames. -/
def sortNames (l : List Str) : List Str := l.foldr insertSorted []

/-! ## Path parsing and `Path.resolve` -/

/-- `pathlib` suffix of a filename: the part from the last dot, unless the
dot is the first or the last character of the name. -/
def pySuffix (name : Str) : Str :=
  match name.reverse.findIdx? (· = '.') with
  | none => []
  | some j =>
    let i := name.length - 1 - j
    if 0 < i ∧ i < name.length - 1 then name.drop i else []

/-- `Path.with_suffix(newSuf)`: strip the current suffix, append `newSuf`. -/
def pyWithSuffix (name newSuf : Str) : Str :=
  name.take (name.length - (pySuffix name).length) ++ newSuf

/-- The sidecar read-marker name `msg_file.with_suffix(".md.seen")`. -/
def seenOf (nm : Str) : Str := pyWithSuffix nm ".md.seen".data

/-- The sidecar path next to a message path. -/
def seenSibling (p : List Str) : List Str :=
  p.dropLast ++ [seenOf (p.getLastD [])]

/-- Render an absolute component path the way Python prints it. -/
def renderPath (p : List Str) : Str :=
  p.foldl (fun acc c => acc ++ '/' :: c) []

/-- Symlink lookup. -/
def lookupLink (links : List (List Str × List Str)) (p : List Str) : Option (List Str) :=
  (links.find? (fun e => e.1 = p)).map Prod.snd

/-- Component-wise resolution: `.` is dropped, `..` removes the last
resolved component, and a component whose resolved path is a symlink
restarts from the (absolute) link target.  `fuel` bounds link chains the
way the OS bounds `ELOOP`; one unit is consumed per component. -/
def resolveComps : Nat → List (List Str × List Str) → List Str → List Str → List Str
  | 0, _, acc, rest => acc ++ rest
  | _ + 1, _, acc, [] => acc
  | fuel + 1, links, acc, c :: rest =>
    if c = ".".data then resolveComps fuel links acc rest
    else if c = "..".data then resolveComps fuel links acc.dropLast rest
    else
      match lookupLink links (acc ++ [c]) with
      | some target => resolveComps fuel links [] (target ++ rest)
      | none => resolveComps fuel links (acc ++ [c]) rest

/-- `Path(s).resolve()`: parse on `/` (empty and `.` components vanish),
anchor relative paths at the current working directory, then resolve. -/
def resolvePathIn (fs : FS) (s : Str) : List Str :=
  let comps := (pySplitOn '/' s).filter (fun c => c ≠ [] ∧ c ≠ ".".data)
  resolveComps 256 fs.links (if s.head? = some '/' then [] else fs.cwd) comps

/-- `A2A_DIR.resolve()`. -/
def resolveA2ARoot (fs : FS) : List Str := resolveComps 256 fs.links [] A2A_DIR

/-! ## Mailbox operations -/

/-- `mark_read`: resolve, require the result to lie under the resolved
mailbox root, require existence and a `.md` suffix, then touch the
sidecar.  The filesystem is returned unchanged on every error path. -/
def markRead (fs : FS) (messagePath : Str) : FS × Except Str Str :=
  let m := resolvePathIn fs messagePath
  let root := resolveA2ARoot fs
  if ¬ root.isPrefixOf m then
    (fs, .error ("Message path must be within ".data ++ renderPath A2A_DIR))
  else if ¬ fsExists fs m then
    (fs, .error ("Message file not found: ".data ++ renderPath m))
  else if pySuffix (m.getLastD []) ≠ ".md".data then
    (fs, .error "Message path must be a .md file".data)
  else
    (fsTouch fs (seenSibling m), .ok ("Marked as read: ".data ++ renderPath m))

/-- The subject slug: lowercase (ASCII), spaces to hyphens, strip
everything outside `[a-z0-9-]`, truncate to 50 characters. -/
def slugify (subject : Str) : Str :=
  (((subject.map Char.toLower).map (fun c => if c = ' ' then '-' else c)).filter
    (fun c => ('a' ≤ c ∧ c ≤ 'z') || ('0' ≤ c ∧ c ≤ '9') || c = '-')).take 50

/-- The delivered message text with YAML frontmatter. -/
def messageText (fromAgent toAgent subject : Str) (expectsReply : Bool) (body ts : Str) : Str :=
  "---\nfrom: ".data ++ fromAgent ++ "\nto: ".data ++ toAgent ++ "\ntimestamp: ".data ++ ts
    ++ "\nsubject: ".data ++ subject ++ "\nexpects-reply: ".data
    ++ (if expectsReply then "true".data else "false".data)
    ++ "\n---\n\n".data ++ body ++ ['\n']

/-- The message filename `f"{filename_timestamp}-{subject_slug}.md"`. -/
def messageFilename (fnameTs subject : Str) : Str :=
  fnameTs ++ '-' :: slugify subject ++ ".md".data

/-- `send_message`. Timestamps are passed in (`_get_timestamp` /
`_get_filename_timestamp` read the clock). -/
def sendMessage (fs : FS) (fromAgent toAgent subject : Str) (expectsReply : Bool)
    (body ts fnameTs : Str) : FS × Except Str Str :=
  match validateAgentName fromAgent with
  | .error e => (fs, .error e)
  | .ok () =>
  match validateAgentName toAgent with
  | .error e => (fs, .error e)
  | .ok () =>
    let recipientDir := A2A_DIR ++ [toAgent]
    let warning : Str :=
      if ¬ fsExists fs recipientDir then
        "Warning: recipient \x27".data ++ toAgent
          ++ "\x27 may not be registered (inbox doesn\x27t exist)\n".data
      else []
    let fs1 := if ¬ fsExists fs recipientDir then fsMkdirParents fs recipientDir else fs
    let filepath := recipientDir ++ [messageFilename fnameTs subject]
    (fsWrite fs1 filepath (messageText fromAgent toAgent subject expectsReply body ts),
      .ok (warning ++ "Sent message to ".data ++ toAgent ++ ": ".data ++ renderPath filepath))

/-- The filenames that `list_inbox` displays: sorted glob results, read
messages filtered out unless `include_read` is set. -/
def listInboxShown (fs : FS) (dir : List Str) (includeRead : Bool) : List Str :=
  (sortNames (globMd fs dir)).filter
    (fun nm => includeRead || ! hasFile fs (dir ++ [seenOf nm]))

/-- `list_inbox`. -/
def listInbox (fs : FS) (name : Str) (includeRead : Bool) : FS × Except Str Str :=
  match validateAgentName name with
  | .error e => (fs, .error e)
  | .ok () =>
    let dir := A2A_DIR ++ [name]
    if ¬ fsExists fs dir then
      (fs, .error ("Inbox directory not found: ".data ++ renderPath dir
        ++ "\nHave you registered this agent?".data))
    else
      let messages := sortNames (globMd fs dir)
      if messages = [] then (fs, .ok ("No messages in inbox for ".data ++ name))
      else
        let entries := (listInboxShown fs dir includeRead).map (fun nm =>
          (if hasFile fs (dir ++ [seenOf nm]) then "  [read] ".data else "  [unread] ".data) ++ nm)
        if entries = [] then
          (fs, .ok ((if includeRead then "No ".data else "No unread ".data)
            ++ "messages in inbox for ".data ++ name))
        else
          (fs, .ok (joinNl (("Inbox for ".data ++ name ++ [':']) :: ([] : Str) :: entries)))

/-- `list_agents`: never fails; placeholder when the registry file is
absent, otherwise the document verbatim. -/
def listAgents (fs : FS) : FS × Str :=
  let agentsFile := A2A_DIR ++ ["active-agents.md".data]
  if ¬ fsExists fs agentsFile then
    (fs, "No agents registered yet. Use register_agent to register an agent.".data)
  else (fs, fileContent fs agentsFile)

/-! ## Poller -/

/-- Outcome of the poll loop. -/
inductive PollOut where
  | notFound
  | found (iteration : Nat) (name : Str) (content : Str)
  deriving Repr, DecidableEq

/-- Observable behaviour of one `poll_inbox` call: number of inbox scans
performed, number of `time.sleep(delay_seconds)` suspensions, and the
outcome (the returned text reports the found message's path and full
content, or the exhausted attempt count). -/
structure PollStats where
  scans : Nat
  sleeps : Nat
  out : PollOut
  deriving Repr, DecidableEq

/-- First unread message of the inbox in sorted filename order, with its
full content (`msg_file.read_text()`). -/
def firstUnread (fs : FS) (dir : List Str) : Option (Str × Str) :=
  ((sortNames (globMd fs dir)).find? (fun nm => ! hasFile fs (dir ++ [seenOf nm]))).map
    (fun nm => (nm, fileContent fs (dir ++ [nm])))

/-- The retry loop of `poll_inbox`: `i` is the 1-based iteration number,
the second argument the number of iterations still allowed.  The inbox is
re-read on every iteration, so the filesystem is a function of the
iteration number (messages may be injected concurrently).  A sleep occurs
after every unsuccessful scan except the last. -/
def pollGo (env : Nat → FS) (dir : List Str) : Nat → Nat → PollStats
  | _, 0 => ⟨0, 0, .notFound⟩
  | i, r + 1 =>
    match firstUnread (env i) dir with
    | some (nm, ct) => ⟨1, 0, .found i nm ct⟩
    | none =>
      if r = 0 then ⟨1, 0, .notFound⟩
      else
        let rest := pollGo env dir (i + 1) r
        ⟨rest.scans + 1, rest.sleeps + 1, rest.out⟩

/-- `poll_inbox` (argument checks, inbox-existence check, then the loop).
`env i` is the filesystem as seen by the scan of iteration `i`. -/
def pollInboxE (env : Nat → FS) (name : Str) (maxIter : Nat) (delay : Int) :
    Except Str PollStats :=
  match validateAgentName name with
  | .error e => .error e
  | .ok () =>
    if maxIter < 1 then .error "max_iterations must be at least 1".data
    else if delay < 0 then .error "delay_seconds must be non-negative".data
    else
      let dir := A2A_DIR ++ [name]
      if ¬ fsExists (env 1) dir then
        .error ("Inbox directory not found: ".data ++ renderPath dir
          ++ "\nHave you registered this agent?".data)
      else .ok (pollGo env dir 1 maxIter)

/-- `poll_inbox` against a filesystem no other process is mutating,
threading the state through like the other operations. -/
def pollInboxRun (fs : FS) (name : Str) (maxIter : Nat) (delay : Int) :
    FS × Except Str PollStats :=
  (fs, pollInboxE (fun _ => fs) name maxIter delay)

/-- Does `register_agent` report an update (as opposed to a fresh
registration)?  Read off the returned message. -/
def reportsUpdate (r : RegResult) : Bool :=
  pyStartsWith r.msg "Updated registration".data

/-! ## Auxiliary lemmas on the string primitives -/

theorem pyStartsWith_iff {s pre : Str} : pyStartsWith s pre = true ↔ pre <+: s := by
  simp [pyStartsWith]

theorem pyStartsWith_of_prefix {p A : Str} (r : Str) (h : p <+: A) :
    pyStartsWith (A ++ r) p = true :=
  pyStartsWith_iff.mpr (h.trans (List.prefix_append A r))

theorem pyStartsWith_append_self (pre rest : Str) : pyStartsWith (pre ++ rest) pre = true :=
  pyStartsWith_of_prefix rest (List.prefix_refl pre)

theorem pyStartsWith_cons_ne {x y : Char} (h : y ≠ x) (a b : Str) :
    pyStartsWith (x :: a) (y :: b) = false := by
  rw [Bool.eq_false_iff]
  intro hc
  rcases List.cons_prefix_cons.mp (pyStartsWith_iff.mp hc) with ⟨h1, -⟩
  exact h h1

theorem pyStartsWith_false_mono {s p1 p2 : Str} (h12 : p1 <+: p2)
    (h : pyStartsWith s p1 = false) : pyStartsWith s p2 = false := by
  rw [Bool.eq_false_iff] at h ⊢
  intro hc
  exact h (pyStartsWith_iff.mpr (h12.trans (pyStartsWith_iff.mp hc)))

theorem ne_agentHeader_of_not_hash {line : Str} (n : Str)
    (h : pyStartsWith line "## ".data = false) : line ≠ agentHeader n := by
  intro he
  rw [he, agentHeader, pyStartsWith_append_self] at h
  cases h

theorem containsSub_iff {pat : Str} : ∀ {s : Str},
    containsSub pat s = true ↔ ∃ a b, s = a ++ pat ++ b := by
  intro s
  induction s with
  | nil =>
    simp only [containsSub, List.isPrefixOf_iff_prefix]
    constructor
    · intro h
      exact ⟨[], [], by simp [List.prefix_nil.mp h]⟩
    · rintro ⟨a, b, hab⟩
      have ha : a = [] ∧ pat = [] ∧ b = [] := by simpa [List.append_assoc] using hab.symm
      simp [ha.2.1]
  | cons c r ih =>
    simp only [containsSub, Bool.or_eq_true, ih, List.isPrefixOf_iff_prefix]
    constructor
    · rintro (⟨t, ht⟩ | ⟨a, b, hab⟩)
      · exact ⟨[], t, by simp [← ht]⟩
      · exact ⟨c :: a, b, by simp [hab]⟩
    · rintro ⟨a, b, hab⟩
      cases a with
      | nil =>
        left
        exact ⟨b, by simpa using hab.symm⟩
      | cons x a0 =>
        right
        simp only [List.cons_append] at hab
        rcases List.cons.injEq .. ▸ hab with ⟨-, h2⟩
        exact ⟨a0, b, h2⟩

theorem containsSub_of_parts (a pat b : Str) : containsSub pat (a ++ pat ++ b) = true :=
  containsSub_iff.mpr ⟨a, b, rfl⟩

theorem reMatchName_of_valid {n : Str} (h1 : n ≠ []) (h2 : n.all isNameChar = true) :
    reMatchName n = true := by
  have hnl : n.getLast? ≠ some '\n' := by
    intro hl
    have hm := List.mem_of_getLast?_eq_some hl
    have := List.all_eq_true.mp h2 _ hm
    simp [isNameChar] at this
  rw [reMatchName]
  simp only [hnl, if_neg]
  simp [h1, h2]

theorem validateAgentName_eq_ok {s : Str} :
    validateAgentName s = .ok () ↔ reMatchName s = true := by
  rw [validateAgentName]
  split <;> simp_all

theorem reMatchName_iff {s : Str} :
    reMatchName s = true ↔
      ((s ≠ [] ∧ s.all isNameChar = true)
        ∨ (∃ t : Str, s = t ++ ['\n'] ∧ t ≠ [] ∧ t.all isNameChar = true)) := by
  constructor
  · intro h
    rw [reMatchName] at h
    by_cases hl : s.getLast? = some '\n'
    · rw [if_pos hl] at h
      obtain ⟨t, rfl⟩ := List.getLast?_eq_some_iff.mp hl
      rw [List.dropLast_concat] at h
      simp only [Bool.and_eq_true, decide_eq_true_eq, ne_eq] at h
      exact Or.inr ⟨t, rfl, h.1, h.2⟩
    · rw [if_neg hl] at h
      simp only [Bool.and_eq_true, decide_eq_true_eq, ne_eq] at h
      exact Or.inl ⟨h.1, h.2⟩
  · intro h
    rw [reMatchName]
    rcases h with ⟨h1, h2⟩ | ⟨t, rfl, h1, h2⟩
    · have hl : s.getLast? ≠ some '\n' := by
        intro hl
        have hm := List.mem_of_getLast?_eq_some hl
        have := List.all_eq_true.mp h2 _ hm
        simp [isNameChar] at this
      rw [if_neg hl]
      simp [h1, h2]
    · rw [if_pos (List.getLast?_concat t)]
      rw [List.dropLast_concat]
      simp [h1, h2]

theorem validate_rejects_char {c : Char} (hc : isNameChar c = false) (hne : c ≠ '\n') :
    ∀ s : Str, c ∈ s → validateAgentName s ≠ .ok () := by
  intro s hs hok
  rcases reMatchName_iff.mp (validateAgentName_eq_ok.mp hok) with ⟨-, hall⟩ | ⟨t, rfl, -, hall⟩
  · rw [List.all_eq_true.mp hall c hs] at hc
    cases hc
  · rcases List.mem_append.mp hs with hm | hm
    · rw [List.all_eq_true.mp hall c hm] at hc
      cases hc
    · exact hne (by simpa using hm)

/-- **C7** counterexample: Python's `$` also matches just before a single
trailing newline, so `_validate_agent_name` accepts `"alice\n"` although
that string does not match the grammar `[A-Za-z0-9_-]+` in full. -/
theorem validate_trailing_newline_counterexample :
    validateAgentName "alice\n".data = .ok ()
      ∧ ¬ ("alice\n".data ≠ ([] : Str) ∧ ("alice\n".data).all isNameChar = true) :=
  ⟨rfl, by decide⟩

/-- **C7** (amended): `validate(n)` succeeds iff `n` matches
`[A-Za-z0-9_-]+` in full **or** is such a match followed by exactly one
trailing newline (an artefact of Python's `$` anchor).  The particular
rejections claimed — the empty string and any string containing `/`,
space, or `.` — all still hold. -/
theorem validate_name_characterization :
    (∀ s : Str, validateAgentName s = .ok () ↔
        ((s ≠ [] ∧ s.all isNameChar = true)
          ∨ (∃ t : Str, s = t ++ ['\n'] ∧ t ≠ [] ∧ t.all isNameChar = true)))
      ∧ validateAgentName [] ≠ .ok ()
      ∧ (∀ s : Str, '/' ∈ s → validateAgentName s ≠ .ok ())
      ∧ (∀ s : Str, ' ' ∈ s → validateAgentName s ≠ .ok ())
      ∧ (∀ s : Str, '.' ∈ s → validateAgentName s ≠ .ok ()) :=
  ⟨fun _ => validateAgentName_eq_ok.trans reMatchName_iff,
   fun h => absurd (validateAgentName_eq_ok.mp h) (by decide),
   validate_rejects_char (by decide) (by decide),
   validate_rejects_char (by decide) (by decide),
   validate_rejects_char (by decide) (by decide)⟩

/-- Witness for the amended C7 theorem at concrete inputs. -/
theorem validate_name_characterization_witness :
    validateAgentName "alice".data = .ok ()
      ∧ validateAgentName "a/b".data ≠ .ok ()
      ∧ validateAgentName "a b".data ≠ .ok ()
      ∧ validateAgentName "a.b".data ≠ .ok ()
      ∧ validateAgentName [] ≠ .ok () :=
  ⟨(validate_name_characterization.1 "alice".data).mpr (Or.inl (by decide)),
   validate_name_characterization.2.2.1 "a/b".data (by decide),
   validate_name_characterization.2.2.2.1 "a b".data (by decide),
   validate_name_characterization.2.2.2.2 "a.b".data (by decide),
   validate_name_characterization.2.1⟩

/-- A registry document whose only record is for `alice-smith`. -/
def docAliceSmith : Str :=
  "# Active Agents\n\n## alice-smith\n\nHelper agent\n\n**Capabilities:** testing\n**Working in:** /tmp\n**Started:** 2026-01-01T00:00:00Z\n**Status:** active\n".data

/-- **C2** counterexample: `unregister_agent` tests membership with a raw
substring check, so with a document whose only record is for
`alice-smith` (and no record for exactly `alice`), unregistering `alice`
succeeds and removes nothing, instead of failing with NotRegistered. -/
theorem unregister_prefix_name_counterexample :
    hasRecordLine docAliceSmith "alice".data = false
      ∧ unregisterAgentDoc (some docAliceSmith) "alice".data
          = .ok (docAliceSmith, "Unregistered agent \x27alice\x27".data) :=
  ⟨by decide, rfl⟩

/-- **C2** (amended): for a valid name, `unregister` fails iff the
document does not exist or the string `"## " + n` does not occur as a
substring of it; an occurrence contributed by a longer name (or any other
text) suffices for the call to succeed, even though nothing matching is
removed. -/
theorem unregister_error_characterization (doc : Option Str) (n : Str)
    (hn : reMatchName n = true) :
    (unregisterAgentDoc doc n).isOk = false ↔
      (doc = none ∨ ∃ c, doc = some c ∧ containsSub (agentHeader n) c = false) := by
  have hv : validateAgentName n = .ok () := validateAgentName_eq_ok.mpr hn
  cases doc with
  | none => simp [unregisterAgentDoc, hv, Except.isOk, Except.toBool]
  | some c =>
    by_cases hct : containsSub (agentHeader n) c = true
    · simp [unregisterAgentDoc, hv, hct, Except.isOk, Except.toBool]
    · simp only [Bool.not_eq_true] at hct
      simp [unregisterAgentDoc, hv, hct, Except.isOk, Except.toBool]

/-- Witness for the amended C2 theorem at concrete inputs. -/
theorem unregister_error_characterization_witness :
    (unregisterAgentDoc none "alice".data).isOk = false
      ∧ (unregisterAgentDoc (some "# Active Agents\n\n## bob\n".data) "alice".data).isOk = false :=
  ⟨(unregister_error_characterization none "alice".data (by decide)).mpr (Or.inl rfl),
   (unregister_error_characterization (some "# Active Agents\n\n## bob\n".data) "alice".data
      (by decide)).mpr (Or.inr ⟨_, rfl, by decide⟩)⟩

/-- The document after registering `alice` once. -/
def docAliceV1 : Str :=
  "# Active Agents\n\n## alice\n\nHelper agent\n\n**Capabilities:** compute\n**Working in:** /tmp\n**Started:** T1\n**Status:** active\n".data

/-- The same document re-registered at timestamp `T2`. -/
def docAliceV1T2 : Str :=
  "# Active Agents\n\n## alice\n\nHelper agent\n\n**Capabilities:** compute\n**Working in:** /tmp\n**Started:** T2\n**Status:** active\n".data

/-- **C3** counterexample: a record for exactly `alice` exists, yet
re-registering with identical field values yields an empty change list and
the fresh-registration message, not an update report. -/
theorem register_unchanged_reported_fresh_counterexample :
    hasRecordLine docAliceV1 "alice".data = true
      ∧ registerAgentDoc (some docAliceV1) "alice".data "Helper agent".data "compute".data
          "/tmp".data "T2".data
          = .ok ⟨docAliceV1T2, [], "Registered agent \x27alice\x27 at T2".data⟩ :=
  ⟨by decide, by decide⟩

theorem reportsUpdate_updated_msg (n ts tail : Str) :
    pyStartsWith ("Updated registration for \x27".data ++ n ++ "\x27 at ".data ++ ts
      ++ "\nChanged fields:\n".data ++ tail) "Updated registration".data = true := by
  have h : ("Updated registration".data : Str) <+: "Updated registration for \x27".data := by
    decide
  simp only [List.append_assoc]
  exact pyStartsWith_of_prefix _ h

theorem reportsUpdate_registered_msg (n ts : Str) :
    pyStartsWith ("Registered agent \x27".data ++ n ++ "\x27 at ".data ++ ts)
      "Updated registration".data = false := by
  have h1 : ("Registered agent \x27".data : Str) = 'R' :: "egistered agent \x27".data := rfl
  have h2 : ("Updated registration".data : Str) = 'U' :: "pdated registration".data := rfl
  rw [h1, h2, List.cons_append, List.cons_append]
  exact pyStartsWith_cons_ne (by decide) _ _

/-- **C3** (amended): `register` reports an update iff the string
`"## " + n` occurs as a substring of the existing document **and** the
computed change list is nonempty.  In particular a re-registration with
unchanged fields is reported as a fresh registration, and an occurrence of
`"## " + n` contributed by a longer name can produce an update report. -/
theorem register_update_report_characterization (doc : Option Str) (n d c w ts : Str)
    (hn : reMatchName n = true) :
    ∀ r, registerAgentDoc doc n d c w ts = .ok r →
      (reportsUpdate r = true ↔
        (containsSub (agentHeader n) (doc.getD "# Active Agents\n\n".data) = true
          ∧ r.changes ≠ [])) := by
  intro r hr
  have hv : validateAgentName n = .ok () := validateAgentName_eq_ok.mpr hn
  rw [registerAgentDoc, hv] at hr
  dsimp only at hr
  injection hr with hr
  subst hr
  by_cases hct : containsSub (agentHeader n) (doc.getD "# Active Agents\n\n".data) = true
  · simp only [hct, if_true]
    by_cases hc0 : registerChanges (doc.getD "# Active Agents\n\n".data) (agentHeader n) d c w = []
    · simp [reportsUpdate, hc0]
      exact pyStartsWith_cons_ne (by decide) _ _
    · simp [reportsUpdate, hc0]
      simp [pyStartsWith, List.isPrefixOf_iff_prefix, List.cons_prefix_cons]
  · simp only [Bool.not_eq_true] at hct
    simp [reportsUpdate, hct]
    exact pyStartsWith_cons_ne (by decide) _ _

/-- Witness for the amended C3 theorem: a record for `alice-smith` makes
the substring check fire for `alice`, and with nonempty new field values
the parsed-empty old fields differ, so the call reports an update. -/
theorem register_update_report_characterization_witness :
    ∃ r, registerAgentDoc (some docAliceSmith) "alice".data "New role".data "caps".data
        "/w".data "T9".data = .ok r ∧ reportsUpdate r = true :=
  ⟨_, rfl,
    (register_update_report_characterization (some docAliceSmith) "alice".data "New role".data
      "caps".data "/w".data "T9".data (by decide) _ rfl).mpr ⟨by decide, by decide⟩⟩

/-! ## Filesystem lemmas for the `mark_read` family -/

theorem fsTouch_links (fs : FS) (p : List Str) : (fsTouch fs p).links = fs.links := by
  rw [fsTouch]
  split <;> rfl

theorem fsTouch_cwd (fs : FS) (p : List Str) : (fsTouch fs p).cwd = fs.cwd := by
  rw [fsTouch]
  split <;> rfl

theorem resolvePathIn_fsTouch (fs : FS) (p : List Str) (s : Str) :
    resolvePathIn (fsTouch fs p) s = resolvePathIn fs s := by
  rw [resolvePathIn, resolvePathIn, fsTouch_links, fsTouch_cwd]

theorem resolveA2ARoot_fsTouch (fs : FS) (p : List Str) :
    resolveA2ARoot (fsTouch fs p) = resolveA2ARoot fs := by
  rw [resolveA2ARoot, resolveA2ARoot, fsTouch_links]

theorem hasFile_fsTouch_self (fs : FS) (p : List Str) : hasFile (fsTouch fs p) p = true := by
  rw [fsTouch]
  split
  · assumption
  · simp [hasFile]

theorem hasFile_fsTouch_of {fs : FS} {q : List Str} (p : List Str) (h : hasFile fs q = true) :
    hasFile (fsTouch fs p) q = true := by
  rw [fsTouch]
  split
  · exact h
  · simp only [hasFile, List.any_cons] at h ⊢
    simp [h]

theorem hasDir_fsTouch (fs : FS) (p q : List Str) : hasDir (fsTouch fs p) q = hasDir fs q := by
  rw [fsTouch]
  split <;> rfl

theorem fsExists_fsTouch_of {fs : FS} {q : List Str} (p : List Str) (h : fsExists fs q = true) :
    fsExists (fsTouch fs p) q = true := by
  rw [fsExists] at h ⊢
  rcases Bool.or_eq_true_iff.mp h with hf | hd
  · simp [hasFile_fsTouch_of p hf]
  · simp [hasDir_fsTouch, hd]

theorem fsTouch_of_hasFile {fs : FS} {p : List Str} (h : hasFile fs p = true) :
    fsTouch fs p = fs := by
  rw [fsTouch, if_pos h]

/-- **C4**: `mark_read` resolves its argument (following `..` and
symlinks) and, whenever the resolved path is not a descendant of the
resolved mailbox root, fails with the path-escape error and returns the
filesystem unchanged — no mutation happens on that failure. -/
theorem markRead_path_escape (fs : FS) (p : Str)
    (h : (resolveA2ARoot fs).isPrefixOf (resolvePathIn fs p) = false) :
    markRead fs p = (fs, .error ("Message path must be within ".data ++ renderPath A2A_DIR)) := by
  rw [markRead]
  simp [h]

/-- A filesystem whose mailbox contains a symlink `evil -> /etc`. -/
def fsEsc : FS := ⟨[], [A2A_DIR], [(A2A_DIR ++ ["evil".data], ["etc".data])], HOME_DIR⟩

/-- Witness for C4: a symlink-based escape and a `..`-based escape are
both rejected with no filesystem change. -/
theorem markRead_path_escape_witness :
    markRead fsEsc "/home/user/a2a/evil/passwd".data
        = (fsEsc, .error ("Message path must be within ".data ++ renderPath A2A_DIR))
      ∧ markRead fsEsc "/home/user/a2a/../secrets.md".data
        = (fsEsc, .error ("Message path must be within ".data ++ renderPath A2A_DIR)) :=
  ⟨markRead_path_escape fsEsc "/home/user/a2a/evil/passwd".data (by decide),
   markRead_path_escape fsEsc "/home/user/a2a/../secrets.md".data (by decide)⟩

/-- **C9**: `mark_read` succeeds on any existing file whose resolved path
lies under the resolved mailbox root and whose name has suffix `.md` — it
never checks that the target is a message inside some agent's inbox — and
it creates the sidecar `.seen` file next to it. -/
theorem markRead_marks_any_md (fs : FS) (input : Str) (m : List Str)
    (hres : resolvePathIn fs input = m)
    (hpre : (resolveA2ARoot fs).isPrefixOf m = true)
    (hex : hasFile fs m = true)
    (hsuf : pySuffix (m.getLastD []) = ".md".data) :
    markRead fs input
        = (fsTouch fs (seenSibling m), .ok ("Marked as read: ".data ++ renderPath m))
      ∧ hasFile (fsTouch fs (seenSibling m)) (seenSibling m) = true := by
  constructor
  · rw [markRead, hres]
    simp [hpre, fsExists, hex, hsuf, ← List.getLastD_eq_getLast?]
  · exact hasFile_fsTouch_self fs (seenSibling m)

/-- A filesystem holding only the registry document itself. -/
def fsReg : FS :=
  ⟨[(A2A_DIR ++ ["active-agents.md".data], "# Active Agents\n".data)], [A2A_DIR], [], HOME_DIR⟩

/-- Witness for C9: marking the registry document `active-agents.md`
itself as read succeeds and creates `active-agents.md.seen`. -/
theorem markRead_marks_any_md_witness :
    markRead fsReg "/home/user/a2a/active-agents.md".data
        = (fsTouch fsReg (seenSibling (A2A_DIR ++ ["active-agents.md".data])),
           .ok ("Marked as read: ".data ++ renderPath (A2A_DIR ++ ["active-agents.md".data])))
      ∧ hasFile (fsTouch fsReg (seenSibling (A2A_DIR ++ ["active-agents.md".data])))
          (seenSibling (A2A_DIR ++ ["active-agents.md".data])) = true :=
  markRead_marks_any_md fsReg "/home/user/a2a/active-agents.md".data
    (A2A_DIR ++ ["active-agents.md".data]) (by decide) (by decide) (by decide) (by decide)

/-- **C8**: after a successful `mark_read` on a message of an agent's
inbox, `list_inbox` with the default `include_read = false` no longer
lists that message; a second `mark_read` on the same path succeeds with
the same result and leaves the filesystem (hence every later `list_inbox`
outcome) unchanged. -/
theorem markRead_excludes_and_idempotent (fs : FS) (input : Str) (name fname : Str)
    (hn : reMatchName name = true)
    (hres : resolvePathIn fs input = A2A_DIR ++ [name, fname])
    (hroot : (resolveA2ARoot fs).isPrefixOf (A2A_DIR ++ [name, fname]) = true)
    (hfile : hasFile fs (A2A_DIR ++ [name, fname]) = true)
    (hsuf : pySuffix fname = ".md".data)
    (hdir : fsExists fs (A2A_DIR ++ [name]) = true) :
    ∃ fs1 msg,
      markRead fs input = (fs1, .ok msg)
        ∧ fname ∉ listInboxShown fs1 (A2A_DIR ++ [name]) false
        ∧ (∃ out, listInbox fs1 name false = (fs1, .ok out))
        ∧ markRead fs1 input = (fs1, .ok msg) := by
  have hv : validateAgentName name = .ok () := validateAgentName_eq_ok.mpr hn
  have hp : A2A_DIR ++ [name, fname] = (A2A_DIR ++ [name]) ++ [fname] := by simp
  have hdropLast : (A2A_DIR ++ [name, fname]).dropLast = A2A_DIR ++ [name] := by
    rw [hp, List.dropLast_concat]
  have hlast : (A2A_DIR ++ [name, fname]).getLastD [] = fname := by
    rw [hp, List.getLastD_concat]
  have hseen : seenSibling (A2A_DIR ++ [name, fname]) = (A2A_DIR ++ [name]) ++ [seenOf fname] := by
    rw [seenSibling, hdropLast, hlast]
  refine ⟨fsTouch fs (seenSibling (A2A_DIR ++ [name, fname])),
    "Marked as read: ".data ++ renderPath (A2A_DIR ++ [name, fname]), ?_, ?_, ?_, ?_⟩
  · rw [markRead, hres]
    simp [hroot, fsExists, hfile, hsuf, hlast, ← List.getLastD_eq_getLast?]
  · intro hmem
    have hpred := (List.mem_filter.mp hmem).2
    simp only [Bool.false_or, Bool.not_eq_true'] at hpred
    rw [show (A2A_DIR ++ [name]) ++ [seenOf fname] = A2A_DIR ++ [name] ++ [seenOf fname] from rfl,
      ← hseen] at hpred
    rw [hasFile_fsTouch_self] at hpred
    cases hpred
  · have hex1 : fsExists (fsTouch fs (seenSibling (A2A_DIR ++ [name, fname])))
        (A2A_DIR ++ [name]) = true := fsExists_fsTouch_of _ hdir
    rw [listInbox, hv]
    dsimp only
    rw [if_neg (by simp [hex1])]
    split
    · exact ⟨_, rfl⟩
    · split
      · exact ⟨_, rfl⟩
      · exact ⟨_, rfl⟩
  · have hres1 : resolvePathIn (fsTouch fs (seenSibling (A2A_DIR ++ [name, fname]))) input
        = A2A_DIR ++ [name, fname] := by rw [resolvePathIn_fsTouch]; exact hres
    rw [markRead, hres1, resolveA2ARoot_fsTouch]
    have hfile1 : hasFile (fsTouch fs (seenSibling (A2A_DIR ++ [name, fname])))
        (A2A_DIR ++ [name, fname]) = true := hasFile_fsTouch_of _ hfile
    simp [hroot, fsExists, hfile1, hsuf, hlast, ← List.getLastD_eq_getLast?,
      fsTouch_of_hasFile (hasFile_fsTouch_self fs (seenSibling (A2A_DIR ++ [name, fname])))]

/-- A filesystem with one unread message in `carol`'s inbox. -/
def fsCarol : FS :=
  ⟨[(A2A_DIR ++ ["carol".data, "2026-01-01T00-00-00Z-hi.md".data], "hello".data)],
   [A2A_DIR, A2A_DIR ++ ["carol".data]], [], HOME_DIR⟩

/-- Witness for C8 at a concrete message path. -/
theorem markRead_excludes_and_idempotent_witness :
    ∃ fs1 msg,
      markRead fsCarol "/home/user/a2a/carol/2026-01-01T00-00-00Z-hi.md".data = (fs1, .ok msg)
        ∧ "2026-01-01T00-00-00Z-hi.md".data
            ∉ listInboxShown fs1 (A2A_DIR ++ ["carol".data]) false
        ∧ (∃ out, listInbox fs1 "carol".data false = (fs1, .ok out))
        ∧ markRead fs1 "/home/user/a2a/carol/2026-01-01T00-00-00Z-hi.md".data = (fs1, .ok msg) :=
  markRead_excludes_and_idempotent fsCarol "/home/user/a2a/carol/2026-01-01T00-00-00Z-hi.md".data
    "carol".data "2026-01-01T00-00-00Z-hi.md".data
    (by decide) (by decide) (by decide) (by decide) (by decide) (by decide)

/-! ## Filesystem lemmas for `send_message` -/

theorem hasDir_fsMkdir_self (fs : FS) (p : List Str) : hasDir (fsMkdir fs p) p = true := by
  rw [fsMkdir]
  split
  · assumption
  · simp [hasDir]

theorem hasDir_fsMkdir_of {fs : FS} {q : List Str} (p : List Str) (h : hasDir fs q = true) :
    hasDir (fsMkdir fs p) q = true := by
  rw [fsMkdir]
  split
  · exact h
  · simp only [hasDir, List.any_cons] at h ⊢
    simp [h]

theorem hasDir_foldl_fsMkdir_of {q : List Str} (L : List (List Str)) (fs : FS)
    (h : hasDir fs q = true) : hasDir (L.foldl fsMkdir fs) q = true := by
  induction L generalizing fs with
  | nil => exact h
  | cons p L ih => exact ih (fsMkdir fs p) (hasDir_fsMkdir_of p h)

theorem hasDir_foldl_fsMkdir_mem {q : List Str} (L : List (List Str)) (fs : FS)
    (h : q ∈ L) : hasDir (L.foldl fsMkdir fs) q = true := by
  induction L generalizing fs with
  | nil => cases h
  | cons p L ih =>
    rcases List.mem_cons.mp h with rfl | hm
    · exact hasDir_foldl_fsMkdir_of L (fsMkdir fs q) (hasDir_fsMkdir_self fs q)
    · exact ih (fsMkdir fs p) hm

theorem hasDir_fsMkdirParents (fs : FS) {p : List Str} (hne : p ≠ []) :
    hasDir (fsMkdirParents fs p) p = true := by
  apply hasDir_foldl_fsMkdir_mem
  refine List.mem_map.mpr ⟨p.length - 1, List.mem_range.mpr ?_, ?_⟩
  · have := List.length_pos.mpr hne
    omega
  · have h : p.length - 1 + 1 = p.length := by
      have := List.length_pos.mpr hne
      omega
    rw [h, List.take_length]

theorem fsMkdir_files (fs : FS) (p : List Str) : (fsMkdir fs p).files = fs.files := by
  rw [fsMkdir]
  split <;> rfl

theorem fsMkdirParents_files (fs : FS) (p : List Str) :
    (fsMkdirParents fs p).files = fs.files := by
  rw [fsMkdirParents]
  generalize (List.range p.length).map (fun i => p.take (i + 1)) = L
  induction L generalizing fs with
  | nil => rfl
  | cons q L ih => rw [List.foldl_cons, ih, fsMkdir_files]

theorem hasDir_fsWrite (fs : FS) (p : List Str) (c : Str) (q : List Str) :
    hasDir (fsWrite fs p c) q = hasDir fs q := rfl

theorem hasFile_fsWrite_self (fs : FS) (p : List Str) (c : Str) :
    hasFile (fsWrite fs p c) p = true := by
  simp [fsWrite, hasFile]

theorem fileContent_fsWrite_self (fs : FS) (p : List Str) (c : Str) :
    fileContent (fsWrite fs p c) p = c := by
  simp [fsWrite, fileContent, List.find?]

theorem mem_insertSorted {x y : Str} {l : List Str} :
    x ∈ insertSorted y l ↔ x = y ∨ x ∈ l := by
  induction l with
  | nil => simp [insertSorted]
  | cons z rest ih =>
    rw [insertSorted]
    split
    · simp
    · simp only [List.mem_cons, ih]
      tauto

theorem mem_sortNames {x : Str} {l : List Str} : x ∈ sortNames l ↔ x ∈ l := by
  induction l with
  | nil => simp [sortNames]
  | cons a l ih =>
    rw [sortNames, List.foldr_cons]
    rw [show List.foldr insertSorted [] l = sortNames l from rfl]
    simp [mem_insertSorted, ih]

theorem messageFilename_endsWith_md (fts subject : Str) :
    pyEndsWith (messageFilename fts subject) ".md".data = true := by
  rw [pyEndsWith]
  refine List.isSuffixOf_iff_suffix.mpr ⟨fts ++ '-' :: slugify subject, ?_⟩
  simp [messageFilename]

/-- **C6**: sending to a recipient whose mailbox directory does not exist
creates the directory, delivers the message into it, returns an
`ok` result whose text carries the unconfirmed-recipient warning, and the
delivered message is listed by `list_inbox(to, include_read := true)`. -/
theorem send_message_unregistered (fs : FS) (fromA toA subject : Str) (er : Bool)
    (body ts fts : Str)
    (hf : reMatchName fromA = true) (ht : reMatchName toA = true)
    (hnd : fsExists fs (A2A_DIR ++ [toA]) = false) :
    ∃ fs1 msg,
      sendMessage fs fromA toA subject er body ts fts = (fs1, .ok msg)
        ∧ pyStartsWith msg "Warning:".data = true
        ∧ fsExists fs1 (A2A_DIR ++ [toA]) = true
        ∧ hasFile fs1 ((A2A_DIR ++ [toA]) ++ [messageFilename fts subject]) = true
        ∧ fileContent fs1 ((A2A_DIR ++ [toA]) ++ [messageFilename fts subject])
            = messageText fromA toA subject er body ts
        ∧ messageFilename fts subject ∈ listInboxShown fs1 (A2A_DIR ++ [toA]) true
        ∧ (∃ out, listInbox fs1 toA true = (fs1, .ok out)) := by
  have hv1 : validateAgentName fromA = .ok () := validateAgentName_eq_ok.mpr hf
  have hv2 : validateAgentName toA = .ok () := validateAgentName_eq_ok.mpr ht
  have hdirne : A2A_DIR ++ [toA] ≠ [] := by simp
  have hsend : sendMessage fs fromA toA subject er body ts fts
      = (fsWrite (fsMkdirParents fs (A2A_DIR ++ [toA]))
          ((A2A_DIR ++ [toA]) ++ [messageFilename fts subject])
          (messageText fromA toA subject er body ts),
         .ok (("Warning: recipient \x27".data ++ toA
             ++ "\x27 may not be registered (inbox doesn\x27t exist)\n".data)
           ++ "Sent message to ".data ++ toA ++ ": ".data
           ++ renderPath ((A2A_DIR ++ [toA]) ++ [messageFilename fts subject]))) := by
    rw [sendMessage, hv1, hv2]
    simp [hnd]
  have hexists : fsExists (fsWrite (fsMkdirParents fs (A2A_DIR ++ [toA]))
      ((A2A_DIR ++ [toA]) ++ [messageFilename fts subject])
      (messageText fromA toA subject er body ts)) (A2A_DIR ++ [toA]) = true := by
    rw [fsExists, hasDir_fsWrite]
    simp [hasDir_fsMkdirParents fs hdirne]
  have hglob : messageFilename fts subject
      ∈ globMd (fsWrite (fsMkdirParents fs (A2A_DIR ++ [toA]))
          ((A2A_DIR ++ [toA]) ++ [messageFilename fts subject])
          (messageText fromA toA subject er body ts)) (A2A_DIR ++ [toA]) := by
    rw [globMd, fsWrite]
    refine List.mem_filter.mpr ⟨?_, messageFilename_endsWith_md fts subject⟩
    apply List.mem_filterMap.mpr
    refine ⟨((A2A_DIR ++ [toA]) ++ [messageFilename fts subject],
      messageText fromA toA subject er body ts), by simp, ?_⟩
    simp [List.dropLast_concat, List.getLast?_concat]
  refine ⟨fsWrite (fsMkdirParents fs (A2A_DIR ++ [toA]))
      ((A2A_DIR ++ [toA]) ++ [messageFilename fts subject])
      (messageText fromA toA subject er body ts), _,
    hsend, ?_, hexists, hasFile_fsWrite_self .., fileContent_fsWrite_self .., ?_, ?_⟩
  · simp only [List.append_assoc]
    exact pyStartsWith_of_prefix _ (by decide)
  · exact List.mem_filter.mpr ⟨mem_sortNames.mpr hglob, by simp⟩
  · rw [listInbox, hv2]
    dsimp only
    rw [if_neg (by exact fun hc => hc hexists)]
    split
    · exact ⟨_, rfl⟩
    · split
      · exact ⟨_, rfl⟩
      · exact ⟨_, rfl⟩

/-- Witness for C6: `alice` sends to unregistered `bob` on an otherwise
empty filesystem. -/
theorem send_message_unregistered_witness :
    ∃ fs1 msg,
      sendMessage ⟨[], [A2A_DIR], [], HOME_DIR⟩ "alice".data "bob".data "Hello World!".data true
          "hi there".data "TS".data "2026-01-01T00-00-00Z".data = (fs1, .ok msg)
        ∧ pyStartsWith msg "Warning:".data = true
        ∧ fsExists fs1 (A2A_DIR ++ ["bob".data]) = true
        ∧ hasFile fs1 ((A2A_DIR ++ ["bob".data])
            ++ [messageFilename "2026-01-01T00-00-00Z".data "Hello World!".data]) = true
        ∧ fileContent fs1 ((A2A_DIR ++ ["bob".data])
            ++ [messageFilename "2026-01-01T00-00-00Z".data "Hello World!".data])
            = messageText "alice".data "bob".data "Hello World!".data true "hi there".data "TS".data
        ∧ messageFilename "2026-01-01T00-00-00Z".data "Hello World!".data
            ∈ listInboxShown fs1 (A2A_DIR ++ ["bob".data]) true
        ∧ (∃ out, listInbox fs1 "bob".data true = (fs1, .ok out)) :=
  send_message_unregistered ⟨[], [A2A_DIR], [], HOME_DIR⟩ "alice".data "bob".data
    "Hello World!".data true "hi there".data "TS".data "2026-01-01T00-00-00Z".data
    (by decide) (by decide) (by decide)

/-! ## Poller lemmas -/

theorem pollGo_succ (env : Nat → FS) (dir : List Str) (i r : Nat) :
    pollGo env dir i (r + 1)
      = match firstUnread (env i) dir with
        | some (nm, ct) => ⟨1, 0, .found i nm ct⟩
        | none =>
          if r = 0 then ⟨1, 0, .notFound⟩
          else
            let rest := pollGo env dir (i + 1) r
            ⟨rest.scans + 1, rest.sleeps + 1, rest.out⟩ := rfl

theorem pollGo_none (env : Nat → FS) (dir : List Str) :
    ∀ r i, 1 ≤ r → (∀ k, i ≤ k → k < i + r → firstUnread (env k) dir = none) →
      pollGo env dir i r = ⟨r, r - 1, .notFound⟩ := by
  intro r
  induction r with
  | zero => intro i h; cases h
  | succ r ih =>
    intro i _ h
    rw [pollGo_succ, h i (Nat.le_refl i) (by omega)]
    by_cases hr : r = 0
    · subst hr
      simp
    · rw [if_neg hr]
      have hres := ih (i + 1) (Nat.one_le_iff_ne_zero.mpr hr)
        (fun k hk1 hk2 => h k (by omega) (by omega))
      rw [hres]
      simp only [PollStats.mk.injEq, true_and, and_true]
      omega

theorem pollGo_found (env : Nat → FS) (dir : List Str) :
    ∀ r i j nm ct, i ≤ j → j < i + r →
      (∀ k, i ≤ k → k < j → firstUnread (env k) dir = none) →
      firstUnread (env j) dir = some (nm, ct) →
      pollGo env dir i r = ⟨j - i + 1, j - i, .found j nm ct⟩ := by
  intro r
  induction r with
  | zero => intro i j nm ct h1 h2; omega
  | succ r ih =>
    intro i j nm ct hij hlt hnone hsome
    rcases Nat.eq_or_lt_of_le hij with rfl | hlt'
    · rw [pollGo_succ, hsome]
      simp
    · rw [pollGo_succ, hnone i (Nat.le_refl i) hlt']
      have hr : r ≠ 0 := by omega
      rw [if_neg hr]
      have hres := ih (i + 1) j nm ct (by omega) (by omega)
        (fun k hk1 hk2 => hnone k (by omega) hk2) hsome
      rw [hres]
      simp only [PollStats.mk.injEq, true_and, and_true]
      constructor <;> omega

/-- **C5**: for a valid agent whose inbox directory exists and
`max_iterations ≥ 1`, `delay_seconds ≥ 0`: if no scan in the window ever
sees an unread message, `poll_inbox` performs exactly `max_iterations`
scans, sleeps (`time.sleep(delay_seconds)`) after every scan except the
last — `max_iterations - 1` times — and returns the not-found outcome
carrying the attempt count rather than an error; if the first unread
message appears at scan `j ≤ max_iterations`, it returns immediately with
that message's name and full content, reporting attempt `j` after `j`
scans and `j - 1` sleeps. -/
theorem poll_inbox_bounded_retry (env : Nat → FS) (n : Str) (maxIter : Nat) (delay : Int)
    (hn : reMatchName n = true) (hmi : 1 ≤ maxIter) (hd : 0 ≤ delay)
    (hex : fsExists (env 1) (A2A_DIR ++ [n]) = true) :
    ((∀ i, i < maxIter + 1 → 1 ≤ i → firstUnread (env i) (A2A_DIR ++ [n]) = none) →
        pollInboxE env n maxIter delay = .ok ⟨maxIter, maxIter - 1, .notFound⟩)
      ∧ (∀ j nm ct, 1 ≤ j → j ≤ maxIter →
          (∀ i, i < j → 1 ≤ i → firstUnread (env i) (A2A_DIR ++ [n]) = none) →
          firstUnread (env j) (A2A_DIR ++ [n]) = some (nm, ct) →
          pollInboxE env n maxIter delay = .ok ⟨j, j - 1, .found j nm ct⟩) := by
  have hv : validateAgentName n = .ok () := validateAgentName_eq_ok.mpr hn
  have hpoll : pollInboxE env n maxIter delay = .ok (pollGo env (A2A_DIR ++ [n]) 1 maxIter) := by
    rw [pollInboxE, hv]
    dsimp only
    rw [if_neg (by omega), if_neg (by omega), if_neg (by exact fun hc => hc hex)]
  constructor
  · intro hnone
    rw [hpoll, pollGo_none env (A2A_DIR ++ [n]) maxIter 1 hmi
      (fun k hk1 hk2 => hnone k (by omega) hk1)]
  · intro j nm ct hj1 hj2 hnone hsome
    rw [hpoll, pollGo_found env (A2A_DIR ++ [n]) maxIter 1 j nm ct hj1 (by omega)
      (fun k hk1 hk2 => hnone k hk2 hk1) hsome]
    simp only [Except.ok.injEq, PollStats.mk.injEq, true_and, and_true]
    omega

/-- An empty inbox for `carol`. -/
def fsPollEmpty : FS := ⟨[], [A2A_DIR, A2A_DIR ++ ["carol".data]], [], HOME_DIR⟩

/-- The same inbox holding one unread message. -/
def fsPollMsg : FS :=
  ⟨[(A2A_DIR ++ ["carol".data, "2026-01-01T00-00-00Z-hi.md".data], "hello".data)],
   [A2A_DIR, A2A_DIR ++ ["carol".data]], [], HOME_DIR⟩

/-- Inbox snapshots: the message is injected before the second scan. -/
def pollEnv : Nat → FS := fun k => if 2 ≤ k then fsPollMsg else fsPollEmpty

/-- Witness for C5: empty inbox exhausts 3 attempts with 2 sleeps, and a
message injected before the second scan is returned on attempt 2 after 1
sleep. -/
theorem poll_inbox_bounded_retry_witness :
    pollInboxE (fun _ => fsPollEmpty) "carol".data 3 0 = .ok ⟨3, 2, .notFound⟩
      ∧ pollInboxE pollEnv "carol".data 3 0
          = .ok ⟨2, 1, .found 2 "2026-01-01T00-00-00Z-hi.md".data "hello".data⟩ :=
  ⟨(poll_inbox_bounded_retry (fun _ => fsPollEmpty) "carol".data 3 0
      (by decide) (by omega) (by omega) (by decide)).1 (by decide),
   (poll_inbox_bounded_retry pollEnv "carol".data 3 0
      (by decide) (by omega) (by omega) (by decide)).2 2
      "2026-01-01T00-00-00Z-hi.md".data "hello".data
      (by omega) (by omega) (by decide) (by decide)⟩

/-! ## Registry round-trip lemmas for re-registration -/

theorem pySplitOn_of_not_mem {sep : Char} : ∀ {x : Str}, sep ∉ x → pySplitOn sep x = [x] := by
  intro x
  induction x with
  | nil => intro _; rfl
  | cons ch r ih =>
    intro h
    have hch : ¬ ch = sep := fun he => h (he ▸ List.mem_cons_self ch r)
    rw [pySplitOn, if_neg hch, ih (fun hm => h (List.mem_cons_of_mem ch hm))]

theorem pySplitOn_append {sep : Char} : ∀ {x : Str} (rest : Str), sep ∉ x →
    pySplitOn sep (x ++ sep :: rest) = x :: pySplitOn sep rest := by
  intro x
  induction x with
  | nil =>
    intro rest _
    show pySplitOn sep (sep :: rest) = [] :: pySplitOn sep rest
    rw [pySplitOn, if_pos rfl]
  | cons ch r ih =>
    intro rest h
    have hch : ¬ ch = sep := fun he => h (he ▸ List.mem_cons_self ch r)
    rw [List.cons_append, pySplitOn, if_neg hch,
      ih rest (fun hm => h (List.mem_cons_of_mem ch hm))]

theorem joinNl_cons_cons (a b : Str) (t : List Str) :
    joinNl (a :: b :: t) = a ++ '\n' :: joinNl (b :: t) := rfl

theorem pySplit_joinNl : ∀ {L : List Str}, L ≠ [] → (∀ l ∈ L, '\n' ∉ l) →
    pySplitNl (joinNl L) = L := by
  intro L
  induction L with
  | nil => intro h; cases h rfl
  | cons l t ih =>
    intro _ h
    cases t with
    | nil => exact pySplitOn_of_not_mem (h l (List.mem_cons_self l []))
    | cons l2 t2 =>
      rw [joinNl_cons_cons]
      show pySplitOn '\n' (l ++ '\n' :: joinNl (l2 :: t2)) = l :: (l2 :: t2)
      rw [pySplitOn_append _ (h l (List.mem_cons_self l (l2 :: t2)))]
      have := ih (by simp) (fun x hx => h x (List.mem_cons_of_mem l hx))
      rw [show pySplitNl (joinNl (l2 :: t2)) = pySplitOn '\n' (joinNl (l2 :: t2)) from rfl] at this
      rw [this]

/-- The line decomposition of a document consisting of the heading and one
freshly appended registration block. -/
theorem registrationEntry_lines (n d c w t : Str)
    (hn : '\n' ∉ n) (hd : '\n' ∉ d) (hc : '\n' ∉ c) (hw : '\n' ∉ w) (ht : '\n' ∉ t) :
    pySplitNl ("# Active Agents".data ++ registrationEntry n d c w t)
      = ["# Active Agents".data, [], agentHeader n, [], d, [],
         "**Capabilities:** ".data ++ c, "**Working in:** ".data ++ w,
         "**Started:** ".data ++ t, "**Status:** active".data, []] := by
  have e1 : ("\n\n## ".data : Str) = '\n' :: '\n' :: "## ".data := rfl
  have e2 : ("\n\n".data : Str) = '\n' :: '\n' :: [] := rfl
  have e3 : ("\n\n**Capabilities:** ".data : Str) = '\n' :: '\n' :: "**Capabilities:** ".data := rfl
  have e4 : ("\n**Working in:** ".data : Str) = '\n' :: "**Working in:** ".data := rfl
  have e5 : ("\n**Started:** ".data : Str) = '\n' :: "**Started:** ".data := rfl
  have e6 : ("\n**Status:** active\n".data : Str)
      = '\n' :: ("**Status:** active".data ++ ['\n']) := rfl
  have harg : "# Active Agents".data ++ registrationEntry n d c w t
      = joinNl ["# Active Agents".data, [], agentHeader n, [], d, [],
          "**Capabilities:** ".data ++ c, "**Working in:** ".data ++ w,
          "**Started:** ".data ++ t, "**Status:** active".data, []] := by
    rw [registrationEntry, e1, e2, e3, e4, e5, e6]
    simp [joinNl, agentHeader, List.append_assoc]
  rw [harg]
  refine pySplit_joinNl (by simp) ?_
  intro l hl
  simp only [List.mem_cons, List.not_mem_nil, or_false] at hl
  rcases hl with rfl | rfl | rfl | rfl | rfl | rfl | rfl | rfl | rfl | rfl | rfl
  · decide
  · decide
  · rw [agentHeader]
    intro hm
    rcases List.mem_append.mp hm with h | h
    · revert h
      decide
    · exact hn h
  · decide
  · exact hd
  · decide
  · intro hm
    rcases List.mem_append.mp hm with h | h
    · revert h
      decide
    · exact hc h
  · intro hm
    rcases List.mem_append.mp hm with h | h
    · revert h
      decide
    · exact hw h
  · intro hm
    rcases List.mem_append.mp hm with h | h
    · revert h
      decide
    · exact ht h
  · decide
  · decide

/-- The initial document contains no `##` at all, so no agent header
occurs in it. -/
theorem containsSub_agentHeader_init (n : Str) :
    containsSub (agentHeader n) "# Active Agents\n\n".data = false := by
  rw [Bool.eq_false_iff]
  intro hc
  obtain ⟨a, b, hab⟩ := containsSub_iff.mp hc
  have hdd : containsSub "##".data "# Active Agents\n\n".data = true := by
    refine containsSub_iff.mpr ⟨a, ' ' :: n ++ b, ?_⟩
    rw [hab, agentHeader]
    have e : ("## ".data : Str) = "##".data ++ [' '] := rfl
    rw [e]
    simp [List.append_assoc]
  revert hdd
  decide

/-- A first registration from a missing document appends a single clean
record block. -/
theorem registerAgentDoc_fresh (n d c w t : Str)
    (h1 : n ≠ []) (h2 : n.all isNameChar = true) :
    registerAgentDoc none n d c w t
      = .ok ⟨"# Active Agents".data ++ registrationEntry n d c w t, [],
          "Registered agent \x27".data ++ n ++ "\x27 at ".data ++ t⟩ := by
  have hv : validateAgentName n = .ok () :=
    validateAgentName_eq_ok.mpr (reMatchName_of_valid h1 h2)
  rw [registerAgentDoc, hv]
  dsimp only
  rw [show (Option.getD (none : Option Str) "# Active Agents\n\n".data : Str)
    = "# Active Agents\n\n".data from rfl]
  rw [containsSub_agentHeader_init n]
  have hrs : pyRstrip "# Active Agents\n\n".data = "# Active Agents".data := by decide
  simp [hrs]

/-- The freshly written document contains the agent's header as a
substring. -/
theorem containsSub_agentHeader_doc (n d c w t : Str) :
    containsSub (agentHeader n) ("# Active Agents".data ++ registrationEntry n d c w t)
      = true := by
  refine containsSub_iff.mpr ⟨"# Active Agents\n\n".data,
    "\n\n".data ++ d ++ "\n\n**Capabilities:** ".data ++ c ++ "\n**Working in:** ".data ++ w
      ++ "\n**Started:** ".data ++ t ++ "\n**Status:** active\n".data, ?_⟩
  rw [registrationEntry, agentHeader]
  have e0 : ("# Active Agents\n\n".data : Str) = "# Active Agents".data ++ ['\n', '\n'] := rfl
  have e1 : ("\n\n## ".data : Str) = ['\n', '\n'] ++ "## ".data := rfl
  rw [e0, e1]
  simp [List.append_assoc]

theorem pyStartsWith_append_ne {A P : Str} (r : Str) (h1 : ¬ P <+: A) (h2 : ¬ A <+: P) :
    pyStartsWith (A ++ r) P = false := by
  rw [Bool.eq_false_iff]
  intro hc
  rcases List.prefix_or_prefix_of_prefix (pyStartsWith_iff.mp hc) (List.prefix_append A r)
    with h | h
  · exact h1 h
  · exact h2 h

/-- Parsing the single-record document back recovers the description and
the capabilities/working-dir lines (the latter through the `replace`
calls). -/
theorem extractFields_lines (n d c w t : Str)
    (hd_hash : pyStartsWith d "## ".data = false)
    (hd_star : pyStartsWith d "**".data = false) :
    extractFields ["# Active Agents".data, [], agentHeader n, [], d, [],
        "**Capabilities:** ".data ++ c, "**Working in:** ".data ++ w,
        "**Started:** ".data ++ t, "**Status:** active".data, []] (agentHeader n)
      = (d, pyRemoveAll "**Capabilities:** ".data ("**Capabilities:** ".data ++ c),
         pyRemoveAll "**Working in:** ".data ("**Working in:** ".data ++ w)) := by
  have hd_caps : pyStartsWith d "**Capabilities:**".data = false :=
    pyStartsWith_false_mono (by decide) hd_star
  have hd_work : pyStartsWith d "**Working in:**".data = false :=
    pyStartsWith_false_mono (by decide) hd_star
  have hd_ne : d ≠ agentHeader n := ne_agentHeader_of_not_hash n hd_hash
  simp only [agentHeader] at hd_ne
  simp at hd_ne
  simp [pyStartsWith] at hd_hash hd_star hd_caps hd_work
  simp [extractFields, extractGo, agentHeader, pyStartsWith, List.isPrefixOf,
    hd_ne, hd_hash, hd_star, hd_caps, hd_work]

/-- Splicing the record out of the single-record document leaves just the
heading and one blank line. -/
theorem removeSection_lines (n d c w t : Str)
    (hd_hash : pyStartsWith d "## ".data = false) :
    removeSection (agentHeader n)
        ["# Active Agents".data, [], agentHeader n, [], d, [],
         "**Capabilities:** ".data ++ c, "**Working in:** ".data ++ w,
         "**Started:** ".data ++ t, "**Status:** active".data, []] false
      = ["# Active Agents".data, []] := by
  have hd_ne : d ≠ agentHeader n := ne_agentHeader_of_not_hash n hd_hash
  simp only [agentHeader] at hd_ne
  simp at hd_ne
  simp [pyStartsWith] at hd_hash
  simp [removeSection, agentHeader, pyStartsWith, List.isPrefixOf, hd_ne, hd_hash]

/-- **C1**: registering `n`, then registering `n` again with a different
description (fields being single-line free text, the description not
starting with `**` or `## `), leaves exactly one record for `n` in the
document; that record carries the new description and a fresh timestamp;
the reported change list contains the entry
`description: '<old>' -> '<new>'`; and the call reports an update. -/
theorem register_reregister_updates (n d1 d2 c w t1 t2 : Str)
    (hn1 : n ≠ []) (hn2 : n.all isNameChar = true)
    (hd1nl : '\n' ∉ d1) (hd2nl : '\n' ∉ d2) (hcnl : '\n' ∉ c) (hwnl : '\n' ∉ w)
    (ht1nl : '\n' ∉ t1) (ht2nl : '\n' ∉ t2)
    (hd1star : pyStartsWith d1 "**".data = false)
    (hd1hash : pyStartsWith d1 "## ".data = false)
    (hd2hash : pyStartsWith d2 "## ".data = false)
    (hne : d1 ≠ d2) :
    ∃ r1 r2,
      registerAgentDoc none n d1 c w t1 = .ok r1
        ∧ registerAgentDoc (some r1.doc) n d2 c w t2 = .ok r2
        ∧ r2.doc = "# Active Agents".data ++ registrationEntry n d2 c w t2
        ∧ pySplitNl r2.doc = ["# Active Agents".data, [], agentHeader n, [], d2, [],
            "**Capabilities:** ".data ++ c, "**Working in:** ".data ++ w,
            "**Started:** ".data ++ t2, "**Status:** active".data, []]
        ∧ countRecordLines r2.doc n = 1
        ∧ renderChange "description".data d1 d2 ∈ r2.changes
        ∧ reportsUpdate r2 = true := by
  have hnl : '\n' ∉ n := fun hm => absurd (List.all_eq_true.mp hn2 _ hm) (by decide)
  have hv : validateAgentName n = .ok () :=
    validateAgentName_eq_ok.mpr (reMatchName_of_valid hn1 hn2)
  have hsplit1 := registrationEntry_lines n d1 c w t1 hnl hd1nl hcnl hwnl ht1nl
  have hextract := extractFields_lines n d1 c w t1 hd1hash hd1star
  have hremove := removeSection_lines n d1 c w t1 hd1hash
  have hch_mem : renderChange "description".data d1 d2
      ∈ registerChanges ("# Active Agents".data ++ registrationEntry n d1 c w t1)
          (agentHeader n) d2 c w := by
    rw [registerChanges]
    rw [show pySplitNl ("# Active Agents".data ++ registrationEntry n d1 c w t1)
      = pySplitNl ("# Active Agents".data ++ registrationEntry n d1 c w t1) from rfl]
    rw [hsplit1, hextract]
    dsimp only
    rw [if_pos hne]
    exact List.mem_append_left _ (List.mem_append_left _ (List.mem_singleton_self _))
  have hch_ne : registerChanges ("# Active Agents".data ++ registrationEntry n d1 c w t1)
      (agentHeader n) d2 c w ≠ [] := by
    intro h0
    rw [h0] at hch_mem
    cases hch_mem
  have hdrop : dropTrailingBlanks ["# Active Agents".data, ([] : Str)]
      = ["# Active Agents".data] := by decide
  have hrstrip : pyRstrip "# Active Agents".data = "# Active Agents".data := by decide
  have hreg2 : registerAgentDoc (some ("# Active Agents".data ++ registrationEntry n d1 c w t1))
      n d2 c w t2
      = .ok ⟨"# Active Agents".data ++ registrationEntry n d2 c w t2,
          registerChanges ("# Active Agents".data ++ registrationEntry n d1 c w t1)
            (agentHeader n) d2 c w,
          "Updated registration for \x27".data ++ n ++ "\x27 at ".data ++ t2
            ++ "\nChanged fields:\n".data
            ++ joinNl ((registerChanges ("# Active Agents".data ++ registrationEntry n d1 c w t1)
                (agentHeader n) d2 c w).map ("  - ".data ++ ·))⟩ := by
    rw [registerAgentDoc, hv]
    dsimp only
    simp only [Option.getD_some]
    rw [containsSub_agentHeader_doc n d1 c w t1]
    simp only [if_true]
    rw [hsplit1, hremove, hdrop]
    rw [show joinNl ["# Active Agents".data] = "# Active Agents".data from rfl]
    rw [hrstrip, if_pos hch_ne]
  refine ⟨_, _, registerAgentDoc_fresh n d1 c w t1 hn1 hn2, hreg2, rfl, ?_, ?_, hch_mem, ?_⟩
  · exact registrationEntry_lines n d2 c w t2 hnl hd2nl hcnl hwnl ht2nl
  · have hsplit2 := registrationEntry_lines n d2 c w t2 hnl hd2nl hcnl hwnl ht2nl
    rw [countRecordLines]
    rw [show (RegResult.doc ⟨"# Active Agents".data ++ registrationEntry n d2 c w t2, _, _⟩ : Str)
      = "# Active Agents".data ++ registrationEntry n d2 c w t2 from rfl]
    rw [hsplit2]
    have hd2_ne : d2 ≠ agentHeader n := ne_agentHeader_of_not_hash n hd2hash
    simp only [agentHeader] at hd2_ne
    simp at hd2_ne
    simp [List.filter, agentHeader, hd2_ne]
  · rw [reportsUpdate]
    exact reportsUpdate_updated_msg n t2 _

/-- Witness for C1 at concrete inputs. -/
theorem register_reregister_updates_witness :
    ∃ r1 r2,
      registerAgentDoc none "alice".data "First role".data "compute".data "/tmp".data "T1".data
          = .ok r1
        ∧ registerAgentDoc (some r1.doc) "alice".data "Second role".data "compute".data
            "/tmp".data "T2".data = .ok r2
        ∧ r2.doc = "# Active Agents".data
            ++ registrationEntry "alice".data "Second role".data "compute".data "/tmp".data
              "T2".data
        ∧ pySplitNl r2.doc = ["# Active Agents".data, [], agentHeader "alice".data, [],
            "Second role".data, [], "**Capabilities:** ".data ++ "compute".data,
            "**Working in:** ".data ++ "/tmp".data, "**Started:** ".data ++ "T2".data,
            "**Status:** active".data, []]
        ∧ countRecordLines r2.doc "alice".data = 1
        ∧ renderChange "description".data "First role".data "Second role".data ∈ r2.changes
        ∧ reportsUpdate r2 = true :=
  register_reregister_updates "alice".data "First role".data "Second role".data "compute".data
    "/tmp".data "T1".data "T2".data (by decide) (by decide) (by decide) (by decide) (by decide)
    (by decide) (by decide) (by decide) (by decide) (by decide) (by decide) (by decide)

/-- **C10**: `list_agents`, `list_inbox` and `poll_inbox` are read-only —
every invocation, successful or failing, returns the filesystem unchanged
(their bodies use no write primitive). -/
theorem read_only_operations (fs : FS) (n : Str) (ir : Bool) (mi : Nat) (d : Int) :
    (listAgents fs).1 = fs ∧ (listInbox fs n ir).1 = fs ∧ (pollInboxRun fs n mi d).1 = fs := by
  refine ⟨?_, ?_, rfl⟩
  · rw [listAgents]
    dsimp only
    split <;> rfl
  · rw [listInbox]
    cases validateAgentName n with
    | error e => rfl
    | ok u =>
      cases u
      dsimp only
      split
      · rfl
      · split
        · rfl
        · split <;> rfl

end A2A
